import Mathlib

/-!
Verification of the changelist/review workflow tool `cr.py`.

The definitions below are a shallow embedding of the Python source in
`bin/cr.py`: the persisted changelist store (`ChangelistInfo`), its JSON
save/load round trip, the changelist resolver (`ParseUserArguments`), the
diff-size and trigger-warning heuristics, and the review-gated check-in
state machine (`executeCheckIn`), together with theorems about them.
Python dictionaries are embedded as association lists (insertion ordered,
keys unique); Python string truthiness is made explicit where the source
relies on it. External collaborators (the VCS subprocess, the HTTP
transport and the HTML scraper) are modelled as inputs: their outputs are
parameters of the embedded functions.
-/

namespace Cr

/-! ## String helpers (embedding of the Python string operations used) -/

/-- Lower-casing of a string, character by character (Python `str.lower`). -/
def strLower (s : String) : String := ⟨s.data.map Char.toLower⟩

/-- Decides whether `pat` occurs at the start of `l`. -/
def takesPfx : List Char → List Char → Bool
  | [], _ => true
  | _ :: _, [] => false
  | c :: cs, d :: ds => c = d && takesPfx cs ds

/-- Decides whether `pat` occurs contiguously anywhere inside `l`. -/
def hasSub (pat : List Char) : List Char → Bool
  | [] => pat.isEmpty
  | c :: t => takesPfx pat (c :: t) || hasSub pat t

/-- Case-insensitive substring test: embedding of
`re.search(pat, s, re.IGNORECASE)` for a literal pattern `pat`. -/
def containsCI (pat s : String) : Bool := hasSub (strLower pat).data (strLower s).data

/-- Python truthiness of an optional string: `None` and `""` are falsy. -/
def pyTruthy : Option String → Bool
  | none => false
  | some s => decide (s ≠ "")

/-- Worker for `pySplitlines` (`acc` holds the current line reversed). -/
def splitlinesGo : List Char → List Char → List String
  | [], [] => []
  | [], acc => [⟨acc.reverse⟩]
  | '\n' :: rest, acc => (⟨acc.reverse⟩ : String) :: splitlinesGo rest []
  | c :: rest, acc => splitlinesGo rest (c :: acc)

/-- Embedding of Python `str.splitlines()` for newline-separated text:
splits at `'\n'`, yielding no trailing empty line (and no line at all for
the empty string). -/
def pySplitlines (s : String) : List String := splitlinesGo s.data []

/-- Digit-string value (the integer `re` group `(\d+)` parses to). -/
def digitsVal (l : List Char) : Nat :=
  l.foldl (fun acc c => acc * 10 + (c.toNat - 48)) 0

/-- Embedding of Python dictionary lookup `d.get(k)` on an association list. -/
def lookupS {α : Type} (k : String) : List (String × α) → Option α
  | [] => none
  | e :: t => if e.1 = k then some e.2 else lookupS k t

/-- Keys of an association list are pairwise distinct (a Python dict). -/
def KeysNodup {α : Type} (m : List (String × α)) : Prop := (m.map Prod.fst).Nodup

/-! ## The persisted changelist store (`ChangelistInfo`)

`ChangelistInfo` holds three pieces of state: `changelist_to_branch`
(changelist name to `[remote_branch, local_branch]`), `changelist_to_files`
(changelist name to list of file paths) and `hidden_branches`. We embed the
two dictionaries as association lists and the mutators as functions. -/

/-- The `changelist_to_files` dictionary. -/
abbrev FilesMap := List (String × List String)

/-- The `changelist_to_branch` dictionary: name to (remote, local). -/
abbrev BranchMap := List (String × (String × String))

/-- Embedding of `sorted(list(set(files) - set(remove_files)))` from
`ChangelistInfo.removeFiles`. -/
def pySetDiffSorted (files remove : List String) : List String :=
  ((files.filter (fun f => decide (f ∉ remove))).dedup).insertionSort (fun a b => a ≤ b)

/-- Embedding of `ChangelistInfo.removeFiles`: every entry has the removed
files stripped (entries are rewritten to a sorted, de-duplicated list), and
entries whose file list becomes empty are deleted. -/
def removeFilesOp (remove : List String) (m : FilesMap) : FilesMap :=
  (m.map (fun e => (e.1, pySetDiffSorted e.2 remove))).filter
    (fun e => decide (e.2 ≠ []))

/-- Embedding of `ChangelistInfo.addFilesToChangelist`: first `removeFiles`
strips the files from every changelist, then the files are appended under
`cl` (creating the entry if absent, at the end, as a Python dict does). -/
def addFilesOp (files : List String) (cl : String) (m : FilesMap) : FilesMap :=
  let m' := removeFilesOp files m
  if m'.any (fun e => decide (e.1 = cl)) then
    m'.map (fun e => if e.1 = cl then (e.1, e.2 ++ files) else e)
  else
    m' ++ [(cl, files)]

/-- One mutation of the files map: the `assignFiles` / `unassignFiles`
operations of the spec. -/
inductive FileOp : Type
  | add (files : List String) (cl : String)
  | remove (files : List String)

/-- Apply one mutation. -/
def applyFileOp (m : FilesMap) : FileOp → FilesMap
  | .add files cl => addFilesOp files cl m
  | .remove files => removeFilesOp files m

/-- Apply a sequence of mutations, oldest first. -/
def applyFileOps (m : FilesMap) (ops : List FileOp) : FilesMap :=
  ops.foldl applyFileOp m

/-- No file path appears under two different changelist names. -/
def FilesUniq (m : FilesMap) : Prop :=
  ∀ c₁ l₁ c₂ l₂ f, (c₁, l₁) ∈ m → (c₂, l₂) ∈ m → f ∈ l₁ → f ∈ l₂ → c₁ = c₂

/-- No changelist entry with an empty file list remains in the map. -/
def NoEmptyEntry (m : FilesMap) : Prop := ∀ c l, (c, l) ∈ m → l ≠ []

/-- Every `add` in the sequence carries at least one file, as at every call
site of `addFilesToChangelist` in the source. -/
def GoodFileOps (ops : List FileOp) : Prop :=
  ∀ op ∈ ops, match op with
    | FileOp.add files _ => files ≠ []
    | FileOp.remove _ => True

/-- The combined files-map invariant carried through sequences of mutations. -/
def FilesInv (m : FilesMap) : Prop := KeysNodup m ∧ FilesUniq m ∧ NoEmptyEntry m

/-- Embedding of `ChangelistInfo.removeChangelist` restricted to its effect
on `changelist_to_branch` (it also drops the entry of the same name from
`changelist_to_files`, which does not touch the branch map). -/
def removeChangelistBranch (cl : String) (b : BranchMap) : BranchMap :=
  b.filter (fun e => decide (e.1 ≠ cl))

/-- Embedding of `ChangelistInfo.removeBranchFromChangelist`: every entry
holding exactly this (remote, local) pair is popped. -/
def removeBranchOp (r l : String) (b : BranchMap) : BranchMap :=
  b.filter (fun e => decide (e.2 ≠ (r, l)))

/-- Embedding of `ChangelistInfo.moveBranchToChangelist`: clear the target
name (`removeChangelist`), clear the pair (`removeBranchFromChangelist`),
then insert the new entry (appended, as for a fresh Python dict key). -/
def moveBranchOp (r l cl : String) (b : BranchMap) : BranchMap :=
  removeBranchOp r l (removeChangelistBranch cl b) ++ [(cl, (r, l))]

/-- Apply a sequence of `moveBranchToChangelist` calls, oldest first; an
operation `(r, l, cl)` assigns branch pair `(r, l)` to changelist `cl`. -/
def applyBranchMoves (b : BranchMap) (ops : List (String × String × String)) : BranchMap :=
  ops.foldl (fun acc op => moveBranchOp op.1 op.2.1 op.2.2 acc) b

/-- No (remote, local) branch pair appears under two different changelist
names. -/
def PairUniq (b : BranchMap) : Prop :=
  ∀ c₁ c₂ p, (c₁, p) ∈ b → (c₂, p) ∈ b → c₁ = c₂

/-! ## JSON save/load of the store (`ChangelistInfo.save` / `load`)

`save` serializes the three maps with `json.dumps(obj, sort_keys=True)`;
`load` reads them back with `.get(key, default)`.  The JSON text is
embedded as a tree; `sort_keys=True` is embedded by emitting every object
with its keys sorted (the three top-level keys are written in their sorted
order directly). `load` in the source assigns the parsed values without
validation; the embedding types the store, so the decoders extract exactly
the shape the rest of the program consumes (`branch[0]`, `branch[1]`,
lists of file names). -/

/-- A JSON value (only the constructors the store format uses). -/
inductive Json : Type
  | str (s : String)
  | arr (l : List Json)
  | obj (l : List (String × Json))

/-- Key of the branch map in the store file (`ChangelistInfo.BRANCHES`). -/
def ciBRANCHES : String := "__branches__"

/-- Key of the files map in the store file
(`ChangelistInfo.STAGED_AND_WORKING`). -/
def ciSTAGED : String := "__staged_and_working__"

/-- Key of the hidden-branches list in the store file
(`ChangelistInfo.HIDDEN_BRANCHES`). -/
def ciHIDDEN : String := "__hidden_branches__"

/-- The in-memory store: the three fields of `ChangelistInfo`. -/
structure StoreM : Type where
  changelist_to_branch : BranchMap
  changelist_to_files : FilesMap
  hidden_branches : List String

/-- Keys of a serialized object, sorted as `json.dumps(sort_keys=True)`
emits them. -/
def sortByKey (l : List (String × Json)) : List (String × Json) :=
  l.insertionSort (fun a b => a.1 ≤ b.1)

/-- Embedding of `ChangelistInfo.save`: the emitted JSON document. The
three top-level keys are listed in their sorted textual order
(`__branches__` < `__hidden_branches__` < `__staged_and_working__`). -/
def saveStore (s : StoreM) : Json :=
  .obj [(ciBRANCHES,
          .obj (sortByKey (s.changelist_to_branch.map
            (fun e => (e.1, Json.arr [.str e.2.1, .str e.2.2]))))),
        (ciHIDDEN, .arr (s.hidden_branches.map .str)),
        (ciSTAGED,
          .obj (sortByKey (s.changelist_to_files.map
            (fun e => (e.1, Json.arr (e.2.map .str))))))]

/-- Decoder for one branch-map value `["remote", "local"]`. -/
def decBranchPair : Json → Option (String × String)
  | .arr [.str a, .str b] => some (a, b)
  | _ => none

/-- Decoder for a list of JSON strings. -/
def decStrs : List Json → Option (List String)
  | [] => some []
  | .str s :: t => (decStrs t).map (fun r => s :: r)
  | _ :: _ => none

/-- Decoder for a files-map value (a JSON array of strings). -/
def decStrList : Json → Option (List String)
  | .arr l => decStrs l
  | _ => none

/-- Entries of a JSON object (a non-object decodes to no entries). -/
def decObjEntries : Json → List (String × Json)
  | .obj l => l
  | _ => []

/-- Embedding of `ChangelistInfo.load` applied to a parsed JSON document:
each of the three maps is read with `.get(key, empty-default)`. -/
def loadStore (j : Json) : StoreM :=
  let l := decObjEntries j
  { changelist_to_branch :=
      (decObjEntries ((lookupS ciBRANCHES l).getD (.obj []))).filterMap
        (fun e => (decBranchPair e.2).map (fun p => (e.1, p)))
    changelist_to_files :=
      (decObjEntries ((lookupS ciSTAGED l).getD (.obj []))).filterMap
        (fun e => (decStrList e.2).map (fun fs => (e.1, fs)))
    hidden_branches :=
      match (lookupS ciHIDDEN l).getD (.arr []) with
      | .arr hl => hl.filterMap (fun x => match x with | .str s => some s | _ => none)
      | _ => [] }

/-- Extensional equality of two association lists seen as Python dicts. -/
def MapEquiv {α : Type} (m₁ m₂ : List (String × α)) : Prop :=
  ∀ k, lookupS k m₁ = lookupS k m₂

/-! ## The changelist resolver (`ParseUserArguments`)

The resolver receives the optional `--revision` and `--changelist`
arguments, the bare file/branch arguments, and the current grouping
computed by `getFileGroupInfo`.  The grouping — a Python dict whose keys
are changelist names or `None` for the unnamed placeholder — is embedded
as the pair of its named entries (`named`) and its optional placeholder
entry (`placeholder`). -/

/-- Embedding of the `FileInfo` container (name, status character, owning
changelist). -/
structure FileInfoM : Type where
  name : String
  ftype : Char
  changelist : Option String
deriving DecidableEq

/-- Embedding of the `FileGroupInfo` container: either a files group or a
branch group, discriminated by `gtype` (`'f'` / `'b'` in the source). -/
structure FileGroupM : Type where
  name : Option String
  gtype : Char
  fileinfo_list : Option (List FileInfoM)
  remote_branch : Option String
  local_branch : Option String
deriving DecidableEq

/-- The tuple `ParseUserArguments` returns: the resolved changelist name
plus the fields of the resolved group. -/
structure PUAResult : Type where
  cl : String
  fileinfo_list : Option (List FileInfoM)
  remote_branch : Option String
  local_branch : Option String
deriving DecidableEq

/-- The `ErrorExit` terminations `ParseUserArguments` can take, with the
data each message interpolates. -/
inductive PUAErr : Type
  | notFound (cl : String)
  | noSuitable
  | ambiguous (candidates : List String)
  | currentBranch
deriving DecidableEq

/-- The git facts `ParseUserArguments` consults through the `GitVCS`
object: the current branch, the output of `git branch -a`, and the
persisted `changelist_to_branch` map. -/
structure GitCtx : Type where
  current_branch : String
  branches : List String
  branchStore : BranchMap

/-- Embedding of `GitVCS.getBranchInfoFromRemoteBranchName`. Note that the
source's final loop `for branch in branches: return remote_branch,
current_branch` returns on the first iteration, without comparing `branch`
with `remote_branch`. -/
def getBranchInfoFromRemoteBranchName (ctx : GitCtx) (rb : String) :
    Except PUAErr (Option (String × String)) :=
  if ctx.current_branch = rb then .error .currentBranch
  else
    let rb' := if rb = "origin" then "remotes/origin/" ++ ctx.current_branch
               else if takesPfx "origin/".data rb.data then "remotes/" ++ rb
               else rb
    match ctx.branches with
    | [] => .ok none
    | _ :: _ => .ok (some (rb', ctx.current_branch))

/-- Embedding of `ChangelistInfo.getChangelistFromBranch`: the first entry
holding exactly this pair, else `None`. -/
def getChangelistFromBranch (ctx : GitCtx) (r l : String) : Option String :=
  (ctx.branchStore.find? (fun e => decide (e.2 = (r, l)))).map Prod.fst

/-- The files-fallback result of `ParseUserArguments`: all arguments become
literal file paths of a new unnamed group (name `"issue"`, `FileInfo`
status `'*'`). -/
def puaFilesResult (opt_files : List String) : PUAResult :=
  ⟨"issue", some (opt_files.map (fun fn => ⟨fn, '*', some "issue"⟩)), none, none⟩

/-- Embedding of `ParseUserArguments`. `named` and `placeholder` are the
string-keyed entries and the `None`-keyed entry of
`changelist_to_filegroupinfo`; `candidates` of the ambiguity error mirror
the comprehension `[cl for cl in keys if cl]` (which drops `None` and the
empty string). -/
def ParseUserArguments (ctx : GitCtx) (opt_revision opt_changelist : Option String)
    (opt_files : List String) (named : List (String × FileGroupM))
    (placeholder : Option FileGroupM) : Except PUAErr PUAResult :=
  if pyTruthy opt_revision then
    .ok ⟨if pyTruthy opt_changelist then opt_changelist.getD "issue" else "issue",
         some [], none, none⟩
  else if pyTruthy opt_changelist then
    let cl := opt_changelist.getD ""
    match lookupS cl named with
    | some g => .ok ⟨cl, g.fileinfo_list, g.remote_branch, g.local_branch⟩
    | none => .error (.notFound cl)
  else if opt_files = [] then
    match named with
    | [(n, g)] => .ok ⟨n, g.fileinfo_list, g.remote_branch, g.local_branch⟩
    | [] =>
      match placeholder with
      | some g => .ok ⟨"issue", g.fileinfo_list, g.remote_branch, g.local_branch⟩
      | none => .error PUAErr.noSuitable
    | _ => .error (.ambiguous ((named.map Prod.fst).filter (fun n => decide (n ≠ ""))))
  else
    match opt_files with
    | [f] =>
      match getBranchInfoFromRemoteBranchName ctx f with
      | .error e => .error e
      | .ok none => .ok (puaFilesResult opt_files)
      | .ok (some (r, l)) =>
        if r ≠ "" ∧ l ≠ "" then
          let cl0 := getChangelistFromBranch ctx r l
          let cl := if pyTruthy cl0 then cl0.getD "" else "issue"
          .ok ⟨cl, none, some r, some l⟩
        else .ok (puaFilesResult opt_files)
    | _ => .ok (puaFilesResult opt_files)

/-! ## Diff-size heuristic (`CrBaseVCS.GetGoofySubjectHeader`) -/

/-- Embedding of `re.match(r'^\+[^\+]', line)`: the line starts with `'+'`
followed by a character other than `'+'`. -/
def isAddedLine (l : String) : Bool :=
  match l.data with
  | c1 :: c2 :: _ => decide (c1 = '+') && decide (c2 ≠ '+')
  | _ => false

/-- Embedding of `re.match(r'^\-[^\-]', line)`. -/
def isRemovedLine (l : String) : Bool :=
  match l.data with
  | c1 :: c2 :: _ => decide (c1 = '-') && decide (c2 ≠ '-')
  | _ => false

/-- Number of counted added lines of a diff. -/
def diffAddCount (diff : String) : Nat :=
  ((pySplitlines diff).filter isAddedLine).length

/-- Number of counted removed lines of a diff. -/
def diffSubCount (diff : String) : Nat :=
  ((pySplitlines diff).filter isRemovedLine).length

/-- The six-band classification of `GetGoofySubjectHeader`. -/
def goofyBandMessage (change_velocity : Nat) : String :=
  if change_velocity < 12 then "A wee bit code review"
  else if change_velocity < 75 then "A small code review"
  else if change_velocity < 250 then "A medium code review"
  else if change_velocity < 750 then "A large code review"
  else if change_velocity < 3000 then "A titanic code review"
  else if change_velocity < 8000 then "Yomama\x27s huge ars code review"
  else "Excessively fatty code review."

/-- The `change_velocity` of a diff: `max(add, sub)`. -/
def changeVelocity (diff : String) : Nat :=
  Nat.max (diffAddCount diff) (diffSubCount diff)

/-- Embedding of `CrBaseVCS.GetGoofySubjectHeader`; `subject_header` is the
`CR_SUBJECT_HEADER` environment value. -/
def GetGoofySubjectHeader (subject_header diff : String) : String :=
  subject_header ++ goofyBandMessage (changeVelocity diff)
    ++ " +" ++ toString (diffAddCount diff) ++ " -" ++ toString (diffSubCount diff) ++ "."

/-- The counting rule the specification states: a line beginning with
exactly one `'+'` (so not with `"++"`). Written from the spec's words, to
compare with `isAddedLine`. -/
def specAddedLine (l : String) : Bool :=
  match l.data with
  | '+' :: rest => match rest with
    | '+' :: _ => false
    | _ => true
  | _ => false

/-- Added-line count under the specification's counting rule. -/
def specAddCount (diff : String) : Nat :=
  ((pySplitlines diff).filter specAddedLine).length

/-! ## Trigger warnings (`CrBaseVCS.GetTriggerWarnings`) -/

/-- A word character of the regex class `\w`. -/
def isWordChar (c : Char) : Bool := c.isAlphanum || c = '_'

/-- Splits a character list at its last `'.'`, if any. -/
def splitLastDot : List Char → Option (List Char × List Char)
  | [] => none
  | c :: rest =>
    match splitLastDot rest with
    | some (b, a) => some (c :: b, a)
    | none => if c = '.' then some ([], rest) else none

/-- Embedding of `re.match(r'^Index: (.+(\.\w+))$', line, re.IGNORECASE)`:
on success returns (group 1, group 2) = (file name, final dot-suffix).
The greedy `.+` makes group 2 the suffix after the last dot; the match
requires that suffix to be non-empty word characters and at least one
character to precede the dot. -/
def parseIndexHeader (line : String) : Option (String × String) :=
  if takesPfx "index: ".data (strLower line).data then
    match splitLastDot (line.data.drop 7) with
    | some (before, ext) =>
      if before ≠ [] ∧ ext ≠ [] ∧ ext.all isWordChar then
        some (⟨line.data.drop 7⟩, ⟨'.' :: ext⟩)
      else none
    | none => none
  else none

/-- The `file_suffix_mapping` of the source, applied to a lower-cased
suffix. -/
def suffixToLanguage (sfx : String) : String :=
  if sfx = ".py" then "python"
  else if sfx = ".pl" then "perl"
  else if sfx = ".pm" then "perl"
  else if sfx = ".java" then "java"
  else "others"

/-- Embedding of `re.match(r'Makefile$', file_name, re.IGNORECASE)`: the
whole name equals "Makefile" up to case. -/
def isMakefileName (fn : String) : Bool := strLower fn = "makefile"

/-- Embedding of `re.search(r"\t", line)`. -/
def containsTab (l : String) : Bool := l.data.any (fun c => decide (c = '\t'))

/-- The environment-derived configuration `GetTriggerWarnings` reads:
per-language column limits and whether tabs are allowed. -/
structure TrigCfg : Type where
  maxCols : String → Nat
  allow_tabs : Bool

/-- The loop state of `GetTriggerWarnings`. -/
structure TrigState : Type where
  file_name : String
  language : String
  err : List String
  warn : List String

/-- Initial loop state: `file_name = ''`, `language = 'others'`. -/
def trigInit : TrigState := ⟨"", "others", [], []⟩

/-- The per-file header tracking of the `GetTriggerWarnings` loop: an
`Index:` header line updates the current file name and language, any other
line keeps them. -/
def trigHeaderUpdate (st : TrigState) (line : String) : String × String :=
  match parseIndexHeader line with
  | some (f, sfx) => (f, suffixToLanguage (strLower sfx))
  | none => (st.file_name, st.language)

/-- One iteration of the `GetTriggerWarnings` loop over a diff line. -/
def trigStep (cfg : TrigCfg) (st : TrigState) (line : String) : TrigState :=
  let fn := (trigHeaderUpdate st line).1
  let lang := (trigHeaderUpdate st line).2
  if isAddedLine line = false then
    { st with file_name := fn, language := lang }
  else
    let tabHit := cfg.allow_tabs = false ∧ containsTab line = true
      ∧ isMakefileName fn = true
    let line1 := if tabHit then line.replace "\t" "[BADTAB]" else line
    let err1 := if tabHit then
        st.err ++ ["Tab detected(" ++ fn ++ "):" ++ line1]
      else st.err
    let warn1 := if line1.length - 1 > cfg.maxCols lang then
        st.warn ++ ["Exceed " ++ toString (cfg.maxCols lang) ++ " cols("
          ++ fn ++ "):" ++ line1]
      else st.warn
    { file_name := fn, language := lang, err := err1, warn := warn1 }

/-- Embedding of `CrBaseVCS.GetTriggerWarnings`: returns
`(err_msg, warn_msg)`. -/
def GetTriggerWarnings (cfg : TrigCfg) (diff : String) : List String × List String :=
  let st := (pySplitlines diff).foldl (trigStep cfg) trigInit
  (st.err, st.warn)

/-- The tracking state (`file_name`, `language`) in effect after a prefix
of the diff's lines has been processed. -/
def trigStateAfter (cfg : TrigCfg) (pre : List String) : TrigState :=
  pre.foldl (trigStep cfg) trigInit

/-! ## The review-gated check-in flow (`executeCheckIn`)

The flow is embedded after argument parsing and changelist resolution: its
inputs are the resolved changelist name, the fetched issue page and
message list (outputs of the HTML-scraper collaborator), and the behavior
of the HTTP transport for the close and publish calls. The embedding
returns the ordered list of externally visible effects together with the
outcome. -/

/-- A message scraped from the issue page: commenter, "time since" label,
text. -/
structure MessageM : Type where
  commenter : String
  ago : String
  msg : String
deriving DecidableEq

/-- Embedding of `re.search(r"LGTM|LTGM|looks good to me", msg,
re.IGNORECASE)`. -/
def mentionsLGTM (s : String) : Bool :=
  containsCI "lgtm" s || containsCI "ltgm" s || containsCI "looks good to me" s

/-- The approval-scan state: the collected approvers, the "time since"
label of the approval, and the approval phrase. -/
structure ScanState : Type where
  approvers : List String
  lgtm_ago : Option String
  approval_message : String
deriving DecidableEq

/-- One iteration of the approval-scan loop of `executeCheckIn`: on a
matching message from `"me"` (the acting user as the page renders it)
nothing is recorded; otherwise the commenter is appended once and the
"time since" label is overwritten. -/
def scanStep (st : ScanState) (m : MessageM) : ScanState :=
  if mentionsLGTM m.msg then
    if m.commenter = "me" then st
    else
      { approvers := if m.commenter ∈ st.approvers then st.approvers
                     else st.approvers ++ [m.commenter]
        lgtm_ago := some m.ago
        approval_message := "LGTM\x27ed" }
  else st

/-- The approval scan over the fetched message list. -/
def scanMsgs (msgs : List MessageM) : ScanState :=
  msgs.foldl scanStep ⟨[], none, ""⟩

/-- A qualifying approval message: mentions the approval marker and is not
a self-approval. Used to characterize what `scanMsgs` records. -/
def qualifies (m : MessageM) : Bool :=
  mentionsLGTM m.msg && decide (m.commenter ≠ "me")

/-- Python truthiness of `lgtm_ago` at the gate (`if not lgtm_ago`). -/
def agoFalsy : Option String → Bool
  | none => true
  | some s => decide (s = "")

/-- One HTTP transport outcome: a body, or an `HTTPError` with status code
and reason phrase. -/
inductive SendResult : Type
  | ok (body : String)
  | httpErr (code : Nat) (msg : String)
deriving DecidableEq

/-- Embedding of `re.match(r'issue(\d+)', cl)`: the leading digits right
after the prefix `"issue"`, if any. -/
def parseIssueNum (cl : String) : Option Nat :=
  if takesPfx "issue".data cl.data then
    let ds := (cl.data.drop 5).takeWhile Char.isDigit
    if ds = [] then none else some (digitsVal ds)
  else none

/-- The initial `update_html` value of the publish loop. -/
def publishInitialHtml : String := "Fatal error: Mondrian did not return a 302"

/-- Embedding of the publish retry loop (step 5 of `executeCheckIn`):
`send i` is the transport outcome of the i-th attempt. A normal (non-302)
response falls through to a retry; an `HTTPError` whose code is 302 or
whose reason phrase matches `/Found/i` is the expected redirect and is
success; after `tries` attempts the loop ends in `ErrorExit` carrying the
last response text. -/
def publishLoopGo (send : Nat → SendResult) (attempt : Nat) :
    Nat → String → Except String Unit
  | 0, last => .error last
  | t + 1, _ =>
    match send attempt with
    | .ok body => publishLoopGo send (attempt + 1) t body
    | .httpErr code msg =>
      if code = 302 ∨ containsCI "found" msg = true then .ok ()
      else publishLoopGo send (attempt + 1) t msg

/-- The publish loop as the source runs it: 3 tries. -/
def publishLoop (send : Nat → SendResult) : Except String Unit :=
  publishLoopGo send 0 3 publishInitialHtml

/-- The externally visible effects of the check-in flow, in order:
the forced first upload, the two issue fetches, the final re-upload, the
VCS commit, the forced-mode warning, the POST to `/close`, and the removal
of the changelist from the persisted store after a successful publish. -/
inductive Effect : Type
  | upload
  | fetch
  | reupload
  | commitStep
  | warnNotClosed
  | closeCall
  | removeCl
deriving DecidableEq

/-- The `ErrorExit` terminations of the check-in flow, with the data each
message interpolates (for the review-gate failure: the changelist name and
the review URL the message asks the reviewer to visit). -/
inductive CheckInErr : Type
  | blindCommit
  | notUploaded (cl : String)
  | notApproved (cl : String) (reviewUrl : String)
  | closeHttpError (code : Nat)
  | closeFailed (issue : Nat)
  | publishFailed (lastHtml : String)
deriving DecidableEq

/-- Inputs of the check-in flow (after argument parsing and changelist
resolution, with no `--revision`): the `--force` flag, the review server
host, the resolved changelist name, the fetched issue page, the scraped
message list, the issue number a forced first upload would create, and the
transport outcomes of the close call and the publish attempts. -/
structure CheckInInput : Type where
  force : Bool
  server : String
  cl : String
  html : String
  msgs : List MessageM
  uploadIssueNum : Nat
  closeSend : SendResult
  publishSend : Nat → SendResult

/-- Steps 2-5 of `executeCheckIn` once the approval gate has passed: the
final re-upload (skipped when forced), the commit, then either the forced
warning or the close call, and the publish retry loop (a success removes
the changelist from the store). -/
def checkInAfterGate (inp : CheckInInput) (tr1 : List Effect) (issue : Nat) :
    List Effect × Except CheckInErr Unit :=
  if inp.force then
    match publishLoop inp.publishSend with
    | .ok _ =>
      (tr1 ++ [.commitStep] ++ [.warnNotClosed] ++ [.removeCl], .ok ())
    | .error h =>
      (tr1 ++ [.commitStep] ++ [.warnNotClosed], .error (.publishFailed h))
  else
    match inp.closeSend with
    | .httpErr c _ =>
      (tr1 ++ [.reupload] ++ [.commitStep] ++ [.closeCall], .error (.closeHttpError c))
    | .ok _ =>
      if containsCI "closed" inp.html then
        match publishLoop inp.publishSend with
        | .ok _ =>
          (tr1 ++ [.reupload] ++ [.commitStep] ++ [.closeCall] ++ [.removeCl], .ok ())
        | .error h =>
          (tr1 ++ [.reupload] ++ [.commitStep] ++ [.closeCall],
           .error (.publishFailed h))
      else
        (tr1 ++ [.reupload] ++ [.commitStep] ++ [.closeCall],
         .error (.closeFailed issue))

/-- The fetch of the issue page and the approval gate of `executeCheckIn`
(`if not lgtm_ago`), with a known issue number: forced mode fakes the scan
state (`["UNAPPROVED"]`, `"now"`); otherwise the message list is scanned
and on a falsy `lgtm_ago` the flow ends with the "does not yet have an
LGTM" error naming the review URL, before any commit. -/
def checkInWithIssue (inp : CheckInInput) (tr0 : List Effect) (issue : Nat)
    (cl : String) : List Effect × Except CheckInErr Unit :=
  let tr1 := tr0 ++ [.fetch, .fetch]
  let st : ScanState :=
    if inp.force then ⟨["UNAPPROVED"], some "now", "FORCE CHECK IN"⟩
    else scanMsgs inp.msgs
  if agoFalsy st.lgtm_ago then
    (tr1, .error (.notApproved cl ("http://" ++ inp.server ++ "/" ++ toString issue)))
  else checkInAfterGate inp tr1 issue

/-- Embedding of `executeCheckIn` (the non-`--revision` path), returning
the ordered effect trace and the outcome. A changelist not named
`issue<N>` is uploaded first when forced and is a terminal error
otherwise; the blind-commit guard fires on the bare placeholder name. -/
def executeCheckInModel (inp : CheckInInput) : List Effect × Except CheckInErr Unit :=
  if inp.cl = "issue" ∧ inp.force = false then ([], .error .blindCommit)
  else
    match parseIssueNum inp.cl with
    | some n => checkInWithIssue inp [] n inp.cl
    | none =>
      if inp.force then
        checkInWithIssue inp [.upload] inp.uploadIssueNum
          ("issue" ++ toString inp.uploadIssueNum)
      else ([], .error (.notUploaded inp.cl))

/-! ## Fetch retry loop (`fetchContentFromUrl`) -/

/-- Outcome of `fetchContentFromUrl`, with the terminal errors
distinguished: the not-found `ErrorExit`, the exhausted-retries
`ErrorExit`, and the other fatal branches. -/
inductive FetchOutcome : Type
  | body (s : String)
  | notFoundExit (errHtml : String)
  | exhaustedExit
  | otherExit
deriving DecidableEq

/-- One transport outcome for the fetch loop: a body, an `HTTPError` with
code, reason phrase and error body, a `URLError`, or another exception. -/
inductive FetchSend : Type
  | ok (body : String)
  | httpErr (code : Nat) (msg : String) (errHtml : String)
  | urlErr
  | otherErr
deriving DecidableEq

/-- Embedding of `re.match(r'No issue exists', err_html, re.IGNORECASE)`:
anchored at the start of the body. -/
def noIssueExists (errHtml : String) : Bool :=
  takesPfx "no issue exists".data (strLower errHtml).data

/-- The not-found test of `fetchContentFromUrl`: HTTP 404, reason phrase
`'Not found'`, or a body starting with "No issue exists". -/
def fetchNotFound (code : Nat) (msg errHtml : String) : Bool :=
  decide (code = 404) || decide (msg = "Not found") || noIssueExists errHtml

/-- Embedding of the `fetchContentFromUrl` retry loop: `tries = 3`
attempts; a not-found `HTTPError` terminates immediately without retry;
any other `HTTPError` sleeps and retries; `URLError` and other exceptions
terminate immediately; running out of tries terminates. -/
def fetchLoopGo (send : Nat → FetchSend) (attempt : Nat) : Nat → FetchOutcome
  | 0 => .exhaustedExit
  | t + 1 =>
    match send attempt with
    | .ok body => .body body
    | .httpErr code msg errHtml =>
      if fetchNotFound code msg errHtml then .notFoundExit errHtml
      else fetchLoopGo send (attempt + 1) t
    | .urlErr => .otherExit
    | .otherErr => .otherExit

/-- The fetch loop as the source runs it: 3 tries. -/
def fetchContentFromUrl (send : Nat → FetchSend) : FetchOutcome :=
  fetchLoopGo send 0 3

/-! ## Theorems: association-list lookup -/

theorem lookupS_eq_none {α : Type} {k : String} :
    ∀ {l : List (String × α)}, lookupS k l = none ↔ ∀ p ∈ l, p.1 ≠ k := by
  intro l
  induction l with
  | nil => simp [lookupS]
  | cons e t ih =>
    by_cases h : e.1 = k
    · simp [lookupS, h]
    · simp [lookupS, h, ih]

theorem lookupS_eq_some {α : Type} {k : String} {v : α} :
    ∀ {l : List (String × α)}, (l.map Prod.fst).Nodup →
      (lookupS k l = some v ↔ (k, v) ∈ l) := by
  intro l
  induction l with
  | nil => simp [lookupS]
  | cons e t ih =>
    intro hnd
    obtain ⟨c, w⟩ := e
    simp only [List.map_cons, List.nodup_cons] at hnd
    by_cases h : c = k
    · subst h
      have hl : lookupS c ((c, w) :: t) = some w := by
        unfold lookupS
        rw [if_pos rfl]
      rw [hl]
      constructor
      · intro h'
        injection h' with h'
        subst h'
        exact List.mem_cons_self _ _
      · intro hmem
        rcases List.mem_cons.mp hmem with h1 | h2
        · injection h1 with h1a h1b
          rw [h1b]
        · exact absurd (List.mem_map_of_mem Prod.fst h2) hnd.1
    · simp only [lookupS, if_neg h, List.mem_cons, Prod.mk.injEq]
      rw [ih hnd.2]
      constructor
      · exact Or.inr
      · rintro (⟨h1, -⟩ | h2)
        · exact absurd h1.symm h
        · exact h2

theorem perm_lookupS {α : Type} {l₁ l₂ : List (String × α)} (hp : l₁.Perm l₂)
    (h₂ : (l₂.map Prod.fst).Nodup) (k : String) : lookupS k l₁ = lookupS k l₂ := by
  have h₁ : (l₁.map Prod.fst).Nodup := ((hp.map Prod.fst).nodup_iff).mpr h₂
  cases hv : lookupS k l₂ with
  | some v =>
    exact (lookupS_eq_some h₁).mpr (hp.mem_iff.mpr ((lookupS_eq_some h₂).mp hv))
  | none =>
    rw [lookupS_eq_none]
    intro p hmem
    exact lookupS_eq_none.mp hv p (hp.mem_iff.mp hmem)

/-! ## Theorems: the files map (claim C3) -/

theorem mem_pySetDiffSorted {files remove : List String} {x : String} :
    x ∈ pySetDiffSorted files remove ↔ x ∈ files ∧ x ∉ remove := by
  unfold pySetDiffSorted
  rw [(List.perm_insertionSort (fun a b => a ≤ b) _).mem_iff, List.mem_dedup,
      List.mem_filter]
  simp

theorem mem_removeFilesOp {remove : List String} {m : FilesMap} {c : String}
    {l : List String} (h : (c, l) ∈ removeFilesOp remove m) :
    ∃ l₀, (c, l₀) ∈ m ∧ l = pySetDiffSorted l₀ remove ∧ l ≠ [] := by
  unfold removeFilesOp at h
  rw [List.mem_filter] at h
  obtain ⟨hmem, hne⟩ := h
  rw [List.mem_map] at hmem
  obtain ⟨⟨c₀, l₀⟩, hm, heq⟩ := hmem
  cases heq
  exact ⟨l₀, hm, rfl, by simpa using hne⟩

theorem removeFilesOp_keysNodup {remove : List String} {m : FilesMap}
    (h : KeysNodup m) : KeysNodup (removeFilesOp remove m) := by
  unfold KeysNodup removeFilesOp
  have hsub : ((m.map (fun e => (e.1, pySetDiffSorted e.2 remove))).filter
      (fun e => decide (e.2 ≠ []))).Sublist
      (m.map (fun e => (e.1, pySetDiffSorted e.2 remove))) :=
    List.filter_sublist _
  refine ((hsub.map Prod.fst).nodup ?_)
  have : (m.map (fun e => (e.1, pySetDiffSorted e.2 remove))).map Prod.fst
      = m.map Prod.fst := by
    simp [List.map_map]
  rw [this]
  exact h

theorem removeFilesOp_filesUniq {remove : List String} {m : FilesMap}
    (h : FilesUniq m) : FilesUniq (removeFilesOp remove m) := by
  intro c₁ l₁ c₂ l₂ f h₁ h₂ hf₁ hf₂
  obtain ⟨l₁₀, hm₁, rfl, -⟩ := mem_removeFilesOp h₁
  obtain ⟨l₂₀, hm₂, rfl, -⟩ := mem_removeFilesOp h₂
  rw [mem_pySetDiffSorted] at hf₁ hf₂
  exact h c₁ l₁₀ c₂ l₂₀ f hm₁ hm₂ hf₁.1 hf₂.1

theorem removeFilesOp_noEmpty {remove : List String} {m : FilesMap} :
    NoEmptyEntry (removeFilesOp remove m) := by
  intro c l h
  exact (mem_removeFilesOp h).choose_spec.2.2

theorem removeFilesOp_not_mem_removed {remove : List String} {m : FilesMap}
    {c : String} {l : List String} (h : (c, l) ∈ removeFilesOp remove m)
    {f : String} (hf : f ∈ remove) : f ∉ l := by
  obtain ⟨l₀, -, rfl, -⟩ := mem_removeFilesOp h
  intro hmem
  exact (mem_pySetDiffSorted.mp hmem).2 hf

theorem mem_addFilesOp {files : List String} {cl : String} {m : FilesMap}
    {c : String} {l : List String} (h : (c, l) ∈ addFilesOp files cl m) :
    (c = cl ∧ ∃ l₀, (c, l₀) ∈ removeFilesOp files m ∧ l = l₀ ++ files)
    ∨ (c = cl ∧ l = files)
    ∨ (c ≠ cl ∧ (c, l) ∈ removeFilesOp files m) := by
  unfold addFilesOp at h
  set m' := removeFilesOp files m with hm'
  by_cases hany : m'.any (fun e => decide (e.1 = cl))
  · rw [if_pos hany] at h
    rw [List.mem_map] at h
    obtain ⟨⟨c₀, l₀⟩, hm, heq⟩ := h
    by_cases hc : c₀ = cl
    · rw [if_pos hc] at heq
      cases heq
      exact Or.inl ⟨hc, l₀, hm, rfl⟩
    · rw [if_neg hc] at heq
      cases heq
      exact Or.inr (Or.inr ⟨hc, hm⟩)
  · rw [if_neg hany] at h
    rcases List.mem_append.mp h with h1 | h2
    · by_cases hc : c = cl
      · exfalso
        apply hany
        rw [List.any_eq_true]
        exact ⟨(c, l), h1, by simp [hc]⟩
      · exact Or.inr (Or.inr ⟨hc, h1⟩)
    · rcases List.mem_singleton.mp h2 with h3
      injection h3 with h3a h3b
      exact Or.inr (Or.inl ⟨h3a, h3b⟩)

theorem addFilesOp_keysNodup {files : List String} {cl : String} {m : FilesMap}
    (h : KeysNodup m) : KeysNodup (addFilesOp files cl m) := by
  have h' : KeysNodup (removeFilesOp files m) := removeFilesOp_keysNodup h
  unfold addFilesOp
  set m' := removeFilesOp files m with hm'
  by_cases hany : m'.any (fun e => decide (e.1 = cl))
  · rw [if_pos hany]
    unfold KeysNodup
    have : (m'.map (fun e => if e.1 = cl then (e.1, e.2 ++ files) else e)).map Prod.fst
        = m'.map Prod.fst := by
      rw [List.map_map]
      apply List.map_congr_left
      intro e _
      by_cases hc : e.1 = cl <;> simp [hc]
    rw [this]
    exact h'
  · rw [if_neg hany]
    unfold KeysNodup
    rw [List.map_append, List.nodup_append]
    refine ⟨h', List.nodup_singleton _, ?_⟩
    intro a ha hb
    rcases List.mem_singleton.mp hb with rfl
    rw [List.mem_map] at ha
    obtain ⟨e, he, rfl⟩ := ha
    apply hany
    rw [List.any_eq_true]
    exact ⟨e, he, by simp⟩

theorem addFilesOp_filesUniq {files : List String} {cl : String} {m : FilesMap}
    (h : FilesUniq m) : FilesUniq (addFilesOp files cl m) := by
  have h' : FilesUniq (removeFilesOp files m) := removeFilesOp_filesUniq h
  intro c₁ l₁ c₂ l₂ f h₁ h₂ hf₁ hf₂
  by_cases hff : f ∈ files
  · -- only entries for `cl` can mention a file in `files`
    have key : ∀ c l, (c, l) ∈ addFilesOp files cl m → f ∈ l → c = cl := by
      intro c l hmem hf
      rcases mem_addFilesOp hmem with ⟨hc, -⟩ | ⟨hc, -⟩ | ⟨hc, hm⟩
      · exact hc
      · exact hc
      · exact absurd hf (removeFilesOp_not_mem_removed hm hff)
    rw [key c₁ l₁ h₁ hf₁, key c₂ l₂ h₂ hf₂]
  · -- a file not in `files` comes from the stripped entries
    have key : ∀ c l, (c, l) ∈ addFilesOp files cl m → f ∈ l →
        ∃ l₀, (c, l₀) ∈ removeFilesOp files m ∧ f ∈ l₀ := by
      intro c l hmem hf
      rcases mem_addFilesOp hmem with ⟨-, l₀, hm, rfl⟩ | ⟨-, rfl⟩ | ⟨-, hm⟩
      · rcases List.mem_append.mp hf with h1 | h2
        · exact ⟨l₀, hm, h1⟩
        · exact absurd h2 hff
      · exact absurd hf hff
      · exact ⟨l, hm, hf⟩
    obtain ⟨l₁₀, hm₁, hf₁₀⟩ := key c₁ l₁ h₁ hf₁
    obtain ⟨l₂₀, hm₂, hf₂₀⟩ := key c₂ l₂ h₂ hf₂
    exact h' c₁ l₁₀ c₂ l₂₀ f hm₁ hm₂ hf₁₀ hf₂₀

theorem addFilesOp_noEmpty {files : List String} {cl : String} {m : FilesMap}
    (hfiles : files ≠ []) : NoEmptyEntry (addFilesOp files cl m) := by
  intro c l hmem
  rcases mem_addFilesOp hmem with ⟨-, l₀, -, rfl⟩ | ⟨-, rfl⟩ | ⟨-, hm⟩
  · intro hnil
    rcases List.append_eq_nil.mp hnil with ⟨-, h2⟩
    exact hfiles h2
  · exact hfiles
  · exact removeFilesOp_noEmpty c l hm

theorem applyFileOp_inv {m : FilesMap} {op : FileOp} (h : FilesInv m)
    (hop : match op with
      | FileOp.add files _ => files ≠ []
      | FileOp.remove _ => True) : FilesInv (applyFileOp m op) := by
  obtain ⟨h₁, h₂, h₃⟩ := h
  cases op with
  | add files cl =>
    exact ⟨addFilesOp_keysNodup h₁, addFilesOp_filesUniq h₂, addFilesOp_noEmpty hop⟩
  | remove files =>
    exact ⟨removeFilesOp_keysNodup h₁, removeFilesOp_filesUniq h₂, removeFilesOp_noEmpty⟩

theorem applyFileOps_inv {m : FilesMap} {ops : List FileOp} (h : FilesInv m)
    (hops : GoodFileOps ops) : FilesInv (applyFileOps m ops) := by
  induction ops generalizing m with
  | nil => exact h
  | cons op t ih =>
    have hop := hops op (List.mem_cons_self _ _)
    have ht : GoodFileOps t := fun o ho => hops o (List.mem_cons_of_mem _ ho)
    exact ih (applyFileOp_inv h hop) ht

/-- Claim C3, counterexample: calling `addFilesToChangelist` with an empty
file list (never done by the source's call sites, but a store mutation of
the claimed class) creates and keeps an entry whose file list is empty, so
the claim's "no empty entry remains" part fails for that sequence. -/
theorem C3_counterexample :
    applyFileOps [] [FileOp.add [] "a"] = [("a", [])]
    ∧ ¬ NoEmptyEntry (applyFileOps [] [FileOp.add [] "a"]) := by
  refine ⟨rfl, fun h => ?_⟩
  exact h "a" [] (List.mem_singleton_self _) rfl

/-- Claim C3 (amended): over every sequence of `addFilesToChangelist` /
`removeFiles` mutations in which each add carries at least one file (as at
every call site), a files map satisfying the store invariant keeps it: no
file path is ever under two different changelist names, and no entry whose
file list became empty remains. -/
theorem C3_files_store_invariant (m : FilesMap) (ops : List FileOp)
    (hm : FilesInv m) (hops : GoodFileOps ops) :
    FilesUniq (applyFileOps m ops) ∧ NoEmptyEntry (applyFileOps m ops) :=
  ⟨(applyFileOps_inv hm hops).2.1, (applyFileOps_inv hm hops).2.2⟩

/-- Witness for claim C3: the invariant holds after a concrete sequence of
mutations starting from the empty store. -/
theorem C3_witness :
    FilesUniq (applyFileOps []
      [FileOp.add ["f1", "f2"] "a", FileOp.add ["f1"] "b", FileOp.remove ["f2"]])
    ∧ NoEmptyEntry (applyFileOps []
      [FileOp.add ["f1", "f2"] "a", FileOp.add ["f1"] "b", FileOp.remove ["f2"]]) :=
  C3_files_store_invariant [] _
    ⟨List.nodup_nil,
     fun c₁ l₁ c₂ l₂ f h₁ => absurd h₁ (List.not_mem_nil _),
     fun c l h => absurd h (List.not_mem_nil _)⟩
    (by
      intro op hop
      rcases List.mem_cons.mp hop with rfl | hop
      · simp
      rcases List.mem_cons.mp hop with rfl | hop
      · simp
      rcases List.mem_cons.mp hop with rfl | hop
      · trivial
      · exact absurd hop (List.not_mem_nil _))

/-! ## Theorems: the branch map (claim C4) -/

theorem mem_moveBranchOp {b : BranchMap} {r l cl : String} {c : String}
    {p : String × String} :
    (c, p) ∈ moveBranchOp r l cl b ↔
      (c = cl ∧ p = (r, l)) ∨ ((c, p) ∈ b ∧ c ≠ cl ∧ p ≠ (r, l)) := by
  unfold moveBranchOp removeBranchOp removeChangelistBranch
  rw [List.mem_append, List.mem_singleton, List.mem_filter, List.mem_filter]
  simp only [decide_eq_true_eq, Prod.mk.injEq]
  constructor
  · rintro (⟨⟨hb, hc⟩, hp⟩ | ⟨hc, hp⟩)
    · exact Or.inr ⟨hb, hc, hp⟩
    · exact Or.inl ⟨hc, hp⟩
  · rintro (⟨hc, hp⟩ | ⟨hb, hc, hp⟩)
    · exact Or.inr ⟨hc, hp⟩
    · exact Or.inl ⟨⟨hb, hc⟩, hp⟩

theorem moveBranchOp_pairUniq {b : BranchMap} {r l cl : String}
    (h : PairUniq b) : PairUniq (moveBranchOp r l cl b) := by
  intro c₁ c₂ p h₁ h₂
  rcases mem_moveBranchOp.mp h₁ with ⟨hc₁, hp₁⟩ | ⟨hb₁, -, hp₁⟩ <;>
    rcases mem_moveBranchOp.mp h₂ with ⟨hc₂, hp₂⟩ | ⟨hb₂, -, hp₂⟩
  · rw [hc₁, hc₂]
  · exact absurd hp₁ hp₂
  · exact absurd hp₂ hp₁
  · exact h c₁ c₂ p hb₁ hb₂

theorem applyBranchMoves_pairUniq {b : BranchMap}
    {ops : List (String × String × String)} (h : PairUniq b) :
    PairUniq (applyBranchMoves b ops) := by
  induction ops generalizing b with
  | nil => exact h
  | cons op t ih => exact ih (moveBranchOp_pairUniq h)

theorem moveBranchOp_filter_name (b : BranchMap) (r l cl : String) :
    (moveBranchOp r l cl b).filter (fun e => decide (e.1 = cl)) = [(cl, (r, l))] := by
  unfold moveBranchOp
  rw [List.filter_append]
  have h1 : (removeBranchOp r l (removeChangelistBranch cl b)).filter
      (fun e => decide (e.1 = cl)) = [] := by
    rw [List.filter_eq_nil_iff]
    intro e he
    unfold removeBranchOp at he
    have he2 := (List.mem_filter.mp he).1
    unfold removeChangelistBranch at he2
    have hne := (List.mem_filter.mp he2).2
    simp only [decide_eq_true_eq] at hne
    simp [hne]
  rw [h1]
  simp

theorem moveBranchOp_filter_pair (b : BranchMap) (r l cl : String) :
    (moveBranchOp r l cl b).filter (fun e => decide (e.2 = (r, l))) = [(cl, (r, l))] := by
  unfold moveBranchOp
  rw [List.filter_append]
  have h1 : (removeBranchOp r l (removeChangelistBranch cl b)).filter
      (fun e => decide (e.2 = (r, l))) = [] := by
    rw [List.filter_eq_nil_iff]
    intro e he
    unfold removeBranchOp at he
    have hne := (List.mem_filter.mp he).2
    simp only [decide_eq_true_eq] at hne
    simp [hne]
  rw [h1]
  simp

/-- Claim C4: over every sequence of `moveBranchToChangelist` calls, a
branch map in which no (remote, local) pair is under two names keeps that
property; moreover a single call leaves exactly one entry for the target
name and exactly one entry for the assigned pair (the same entry), so a
reassignment replaces without leaving a second entry for either. -/
theorem C4_branch_store_invariant (b : BranchMap)
    (ops : List (String × String × String)) (r l cl : String)
    (hb : PairUniq b) :
    PairUniq (applyBranchMoves b ops)
    ∧ (moveBranchOp r l cl b).filter (fun e => decide (e.1 = cl)) = [(cl, (r, l))]
    ∧ (moveBranchOp r l cl b).filter (fun e => decide (e.2 = (r, l))) = [(cl, (r, l))] :=
  ⟨applyBranchMoves_pairUniq hb,
   moveBranchOp_filter_name b r l cl,
   moveBranchOp_filter_pair b r l cl⟩

/-- Witness for claim C4 at a concrete store and a concrete sequence that
reassigns both an existing name and an existing pair. -/
theorem C4_witness :
    PairUniq (applyBranchMoves [("a", ("r1", "l1"))]
      [("r1", "l1", "b"), ("r2", "l2", "b")])
    ∧ (moveBranchOp "r1" "l1" "b" [("a", ("r1", "l1"))]).filter
        (fun e => decide (e.1 = "b")) = [("b", ("r1", "l1"))]
    ∧ (moveBranchOp "r1" "l1" "b" [("a", ("r1", "l1"))]).filter
        (fun e => decide (e.2 = ("r1", "l1"))) = [("b", ("r1", "l1"))] :=
  C4_branch_store_invariant [("a", ("r1", "l1"))]
    [("r1", "l1", "b"), ("r2", "l2", "b")] "r1" "l1" "b"
    (by
      intro c₁ c₂ p h₁ h₂
      have e₁ := List.mem_singleton.mp h₁
      have e₂ := List.mem_singleton.mp h₂
      injection e₁ with a₁ b₁
      injection e₂ with a₂ b₂
      rw [a₁, a₂])

/-! ## Theorems: save/load round trip (claim C9) -/

theorem decBranch_map_enc (m : BranchMap) :
    (m.map (fun e => (e.1, Json.arr [.str e.2.1, .str e.2.2]))).filterMap
      (fun e => (decBranchPair e.2).map (fun p => (e.1, p))) = m := by
  induction m with
  | nil => rfl
  | cons e t ih =>
    rw [List.map_cons,
      @List.filterMap_cons_some (String × Json) (String × String × String)
        (fun x => (decBranchPair x.2).map (fun p => (x.1, p)))
        (e.1, Json.arr [.str e.2.1, .str e.2.2])
        (t.map (fun x => (x.1, Json.arr [.str x.2.1, .str x.2.2]))) e rfl,
      ih]

theorem decStrs_map_enc (l : List String) : decStrs (l.map .str) = some l := by
  induction l with
  | nil => rfl
  | cons s t ih =>
    simp [decStrs, ih]

theorem decFiles_map_enc (m : FilesMap) :
    (m.map (fun e => (e.1, Json.arr (e.2.map .str)))).filterMap
      (fun e => (decStrList e.2).map (fun fs => (e.1, fs))) = m := by
  induction m with
  | nil => rfl
  | cons e t ih =>
    have hstep : (fun x : String × Json => (decStrList x.2).map (fun fs => (x.1, fs)))
        (e.1, Json.arr (e.2.map .str)) = some e := by
      show ((decStrs (e.2.map .str)).map (fun fs => (e.1, fs))) = some e
      rw [decStrs_map_enc]
      rfl
    rw [List.map_cons,
      @List.filterMap_cons_some (String × Json) (String × List String)
        (fun x => (decStrList x.2).map (fun fs => (x.1, fs)))
        (e.1, Json.arr (e.2.map .str))
        (t.map (fun x => (x.1, Json.arr (x.2.map .str)))) e hstep,
      ih]

theorem loadStore_saveStore_branch (s : StoreM) :
    (loadStore (saveStore s)).changelist_to_branch
    = (sortByKey (s.changelist_to_branch.map
        (fun e => (e.1, Json.arr [.str e.2.1, .str e.2.2])))).filterMap
        (fun e => (decBranchPair e.2).map (fun p => (e.1, p))) := by
  have h1 : ciBRANCHES = ciBRANCHES := rfl
  simp [loadStore, saveStore, decObjEntries, lookupS, ciBRANCHES]

theorem loadStore_saveStore_files (s : StoreM) :
    (loadStore (saveStore s)).changelist_to_files
    = (sortByKey (s.changelist_to_files.map
        (fun e => (e.1, Json.arr (e.2.map .str))))).filterMap
        (fun e => (decStrList e.2).map (fun fs => (e.1, fs))) := by
  have hne1 : ciBRANCHES ≠ ciSTAGED := by decide
  have hne2 : ciHIDDEN ≠ ciSTAGED := by decide
  simp [loadStore, saveStore, decObjEntries, lookupS, hne1, hne2]

theorem hidden_map_enc (l : List String) :
    (l.map Json.str).filterMap
      (fun x => match x with | .str s => some s | _ => none) = l := by
  induction l with
  | nil => rfl
  | cons s t ih =>
    rw [List.map_cons,
      @List.filterMap_cons_some Json String
        (fun x => match x with | .str s => some s | _ => none)
        (Json.str s) (t.map Json.str) s rfl,
      ih]

theorem loadStore_saveStore_hidden (s : StoreM) :
    (loadStore (saveStore s)).hidden_branches = s.hidden_branches := by
  have hne1 : ciBRANCHES ≠ ciHIDDEN := by decide
  simp only [loadStore, saveStore, decObjEntries, lookupS, if_neg hne1, if_pos rfl,
    Option.getD_some]
  exact hidden_map_enc s.hidden_branches

/-- Claim C9: saving the store and immediately loading it back yields the
same three maps — the two dictionaries agree on every lookup (Python dict
equality) and the hidden-branches list is unchanged. The hypotheses state
that the two maps are genuine dictionaries (no duplicate keys). -/
theorem C9_save_load_roundtrip (s : StoreM)
    (hb : KeysNodup s.changelist_to_branch)
    (hf : KeysNodup s.changelist_to_files) :
    MapEquiv (loadStore (saveStore s)).changelist_to_branch s.changelist_to_branch
    ∧ MapEquiv (loadStore (saveStore s)).changelist_to_files s.changelist_to_files
    ∧ (loadStore (saveStore s)).hidden_branches = s.hidden_branches := by
  refine ⟨?_, ?_, loadStore_saveStore_hidden s⟩
  · intro k
    rw [loadStore_saveStore_branch s]
    have hp1 := (List.perm_insertionSort
      (fun a b : String × Json => a.1 ≤ b.1)
      (s.changelist_to_branch.map
        (fun e => (e.1, Json.arr [.str e.2.1, .str e.2.2])))).filterMap
      (fun e => (decBranchPair e.2).map (fun p => (e.1, p)))
    rw [decBranch_map_enc] at hp1
    exact perm_lookupS hp1 hb k
  · intro k
    rw [loadStore_saveStore_files s]
    have hp1 := (List.perm_insertionSort
      (fun a b : String × Json => a.1 ≤ b.1)
      (s.changelist_to_files.map
        (fun e => (e.1, Json.arr (e.2.map .str))))).filterMap
      (fun e => (decStrList e.2).map (fun fs => (e.1, fs)))
    rw [decFiles_map_enc] at hp1
    exact perm_lookupS hp1 hf k

/-- Witness for claim C9 at a concrete store holding one branch changelist,
one files changelist and one hidden branch. -/
theorem C9_witness :
    lookupS "issue1" (loadStore (saveStore
      ⟨[("issue1", ("remotes/origin/master", "master"))],
       [("issue2", ["bin/cr.py", "a.py"])],
       ["remotes/origin/junk"]⟩)).changelist_to_branch
      = some ("remotes/origin/master", "master")
    ∧ lookupS "issue2" (loadStore (saveStore
      ⟨[("issue1", ("remotes/origin/master", "master"))],
       [("issue2", ["bin/cr.py", "a.py"])],
       ["remotes/origin/junk"]⟩)).changelist_to_files
      = some ["bin/cr.py", "a.py"]
    ∧ (loadStore (saveStore
      ⟨[("issue1", ("remotes/origin/master", "master"))],
       [("issue2", ["bin/cr.py", "a.py"])],
       ["remotes/origin/junk"]⟩)).hidden_branches = ["remotes/origin/junk"] := by
  have h := C9_save_load_roundtrip
    ⟨[("issue1", ("remotes/origin/master", "master"))],
     [("issue2", ["bin/cr.py", "a.py"])],
     ["remotes/origin/junk"]⟩
    (by simp [KeysNodup]) (by simp [KeysNodup])
  refine ⟨?_, ?_, h.2.2⟩
  · rw [h.1 "issue1"]
    rfl
  · rw [h.2.1 "issue2"]
    rfl

/-! ## Theorems: the changelist resolver (claims C2 and C6) -/

/-- Claim C2: with no revision, no explicit changelist and no file/branch
arguments, the resolver returns the single named group when there is
exactly one; returns the unnamed placeholder group (never a failure) when
there are no named groups but the placeholder exists; fails with the
"no suitable changelist" error when there is neither; and with two or more
named groups fails with an error enumerating every named candidate. The
hypothesis states that no changelist is named by the empty string (the
source would silently drop such a name from the candidate list). -/
theorem C2_resolver_no_args (ctx : GitCtx) (named : List (String × FileGroupM))
    (placeholder : Option FileGroupM)
    (hnames : ∀ p ∈ named, p.1 ≠ "") :
    (∀ n g, named = [(n, g)] →
      ParseUserArguments ctx none none [] named placeholder
        = .ok ⟨n, g.fileinfo_list, g.remote_branch, g.local_branch⟩)
    ∧ (∀ g, named = [] → placeholder = some g →
      ParseUserArguments ctx none none [] named placeholder
        = .ok ⟨"issue", g.fileinfo_list, g.remote_branch, g.local_branch⟩)
    ∧ (named = [] → placeholder = none →
      ParseUserArguments ctx none none [] named placeholder
        = .error PUAErr.noSuitable)
    ∧ (2 ≤ named.length →
      ParseUserArguments ctx none none [] named placeholder
        = .error (.ambiguous (named.map Prod.fst))) := by
  refine ⟨?_, ?_, ?_, ?_⟩
  · intro n g hn
    subst hn
    rfl
  · intro g hn hp
    subst hn
    subst hp
    rfl
  · intro hn hp
    subst hn
    subst hp
    rfl
  · intro hlen
    obtain ⟨a, t1, rfl⟩ : ∃ a t1, named = a :: t1 := by
      cases named with
      | nil => simp at hlen
      | cons a t1 => exact ⟨a, t1, rfl⟩
    obtain ⟨b, t2, rfl⟩ : ∃ b t2, t1 = b :: t2 := by
      cases t1 with
      | nil => simp at hlen
      | cons b t2 => exact ⟨b, t2, rfl⟩
    obtain ⟨a1, a2⟩ := a
    obtain ⟨b1, b2⟩ := b
    have hfilt : ((((a1, a2) :: (b1, b2) :: t2).map Prod.fst).filter
        (fun n => decide (n ≠ ""))) = ((a1, a2) :: (b1, b2) :: t2).map Prod.fst := by
      apply List.filter_eq_self.mpr
      intro x hx
      rw [List.mem_map] at hx
      obtain ⟨p, hp, rfl⟩ := hx
      simpa using hnames p hp
    show Except.error (PUAErr.ambiguous ((((a1, a2) :: (b1, b2) :: t2).map Prod.fst).filter
        (fun n => decide (n ≠ "")))) = _
    rw [hfilt]

/-- Witness for claim C2: zero named groups with a populated placeholder
resolve to the placeholder group. -/
theorem C2_witness :
    ParseUserArguments ⟨"master", ["master"], []⟩ none none [] []
      (some ⟨none, 'f', some [⟨"a.py", 'M', none⟩], none, none⟩)
      = .ok ⟨"issue", some [⟨"a.py", 'M', none⟩], none, none⟩ := by
  have h := C2_resolver_no_args ⟨"master", ["master"], []⟩ []
    (some ⟨none, 'f', some [⟨"a.py", 'M', none⟩], none, none⟩)
    (by intro p hp; cases hp)
  exact h.2.1 ⟨none, 'f', some [⟨"a.py", 'M', none⟩], none, none⟩ rfl rfl

/-- Claim C6, evaluated at the failing input: the current branch is
`master` and the known branches are `master` and `remotes/origin/master`;
the single bare argument `not_a_branch` matches no known branch, yet
`getBranchInfoFromRemoteBranchName` returns it as a branch pair (its final
loop returns on the first iteration without comparing), so the resolver
produces a branch-based group instead of the claimed file-path group. -/
theorem C6_single_arg_branch_bug :
    ("not_a_branch" ∉ (["master", "remotes/origin/master"] : List String))
    ∧ getBranchInfoFromRemoteBranchName
        ⟨"master", ["master", "remotes/origin/master"], []⟩ "not_a_branch"
        = .ok (some ("not_a_branch", "master"))
    ∧ ParseUserArguments ⟨"master", ["master", "remotes/origin/master"], []⟩
        none none ["not_a_branch"] [] none
        = .ok ⟨"issue", none, some "not_a_branch", some "master"⟩ := by
  refine ⟨by decide, rfl, rfl⟩

/-! ## Theorems: the diff-size heuristic (claim C7) -/

/-- Claim C7, counterexample: the one-line diff `"+"` begins with exactly
one `'+'` (and not with `"++"`), so by the claim's counting rule it is an
added line, but the source's pattern `^\+[^\+]` requires a following
character and does not count it. -/
theorem C7_counterexample :
    specAddCount "+" = 1 ∧ diffAddCount "+" = 0
    ∧ GetGoofySubjectHeader "" "+" = "A wee bit code review +0 -0." := by
  refine ⟨by decide, by decide, by decide⟩

/-- Claim C7 (amended): an added (resp. removed) line is one beginning
with `'+'` (resp. `'-'`) followed by a character other than `'+'` (resp.
`'-'`); the velocity is `max(added, removed)` and the produced header
classifies it into the six bands with boundaries exactly at 12, 75, 250,
750, 3000 and 8000 — in particular velocity 11 yields the lowest band's
message and velocity 12 the next band's. -/
theorem C7_size_bands (subject_header diff : String) :
    (changeVelocity diff = Nat.max (diffAddCount diff) (diffSubCount diff))
    ∧ (changeVelocity diff < 12 →
      GetGoofySubjectHeader subject_header diff
        = subject_header ++ "A wee bit code review"
          ++ " +" ++ toString (diffAddCount diff)
          ++ " -" ++ toString (diffSubCount diff) ++ ".")
    ∧ (12 ≤ changeVelocity diff → changeVelocity diff < 75 →
      GetGoofySubjectHeader subject_header diff
        = subject_header ++ "A small code review"
          ++ " +" ++ toString (diffAddCount diff)
          ++ " -" ++ toString (diffSubCount diff) ++ ".")
    ∧ (75 ≤ changeVelocity diff → changeVelocity diff < 250 →
      GetGoofySubjectHeader subject_header diff
        = subject_header ++ "A medium code review"
          ++ " +" ++ toString (diffAddCount diff)
          ++ " -" ++ toString (diffSubCount diff) ++ ".")
    ∧ (250 ≤ changeVelocity diff → changeVelocity diff < 750 →
      GetGoofySubjectHeader subject_header diff
        = subject_header ++ "A large code review"
          ++ " +" ++ toString (diffAddCount diff)
          ++ " -" ++ toString (diffSubCount diff) ++ ".")
    ∧ (750 ≤ changeVelocity diff → changeVelocity diff < 3000 →
      GetGoofySubjectHeader subject_header diff
        = subject_header ++ "A titanic code review"
          ++ " +" ++ toString (diffAddCount diff)
          ++ " -" ++ toString (diffSubCount diff) ++ ".")
    ∧ (3000 ≤ changeVelocity diff → changeVelocity diff < 8000 →
      GetGoofySubjectHeader subject_header diff
        = subject_header ++ "Yomama\x27s huge ars code review"
          ++ " +" ++ toString (diffAddCount diff)
          ++ " -" ++ toString (diffSubCount diff) ++ ".")
    ∧ (8000 ≤ changeVelocity diff →
      GetGoofySubjectHeader subject_header diff
        = subject_header ++ "Excessively fatty code review."
          ++ " +" ++ toString (diffAddCount diff)
          ++ " -" ++ toString (diffSubCount diff) ++ ".") := by
  unfold GetGoofySubjectHeader goofyBandMessage
  refine ⟨rfl, ?_, ?_, ?_, ?_, ?_, ?_, ?_⟩
  · intro h1
    rw [if_pos h1]
  · intro h1 h2
    rw [if_neg (by omega), if_pos h2]
  · intro h1 h2
    rw [if_neg (by omega), if_neg (by omega), if_pos h2]
  · intro h1 h2
    rw [if_neg (by omega), if_neg (by omega), if_neg (by omega), if_pos h2]
  · intro h1 h2
    rw [if_neg (by omega), if_neg (by omega), if_neg (by omega), if_neg (by omega),
      if_pos h2]
  · intro h1 h2
    rw [if_neg (by omega), if_neg (by omega), if_neg (by omega), if_neg (by omega),
      if_neg (by omega), if_pos h2]
  · intro h1
    rw [if_neg (by omega), if_neg (by omega), if_neg (by omega), if_neg (by omega),
      if_neg (by omega), if_neg (by omega)]

/-- Witness for claim C7 at concrete diffs of velocity 11 and 12: the
boundary at 12 behaves as claimed. -/
theorem C7_witness :
    GetGoofySubjectHeader ""
      "+a\n+a\n+a\n+a\n+a\n+a\n+a\n+a\n+a\n+a\n+a"
      = "A wee bit code review +11 -0."
    ∧ GetGoofySubjectHeader ""
      "+a\n+a\n+a\n+a\n+a\n+a\n+a\n+a\n+a\n+a\n+a\n+a"
      = "A small code review +12 -0." := by
  constructor
  · have h := (C7_size_bands "" "+a\n+a\n+a\n+a\n+a\n+a\n+a\n+a\n+a\n+a\n+a").2.1
      (by decide)
    rw [h]
    decide
  · have h := (C7_size_bands "" "+a\n+a\n+a\n+a\n+a\n+a\n+a\n+a\n+a\n+a\n+a\n+a").2.2.1
      (by decide) (by decide)
    rw [h]
    decide

/-! ## Theorems: trigger warnings (claim C10) -/

theorem splitLastDot_eq :
    ∀ {l b a : List Char}, splitLastDot l = some (b, a) → l = b ++ '.' :: a := by
  intro l
  induction l with
  | nil =>
    intro b a h
    cases h
  | cons c rest ih =>
    intro b a h
    unfold splitLastDot at h
    cases hrec : splitLastDot rest with
    | some p =>
      rw [hrec] at h
      obtain ⟨b', a'⟩ := p
      injection h with h
      injection h with h1 h2
      rw [← h1, ← h2, List.cons_append]
      rw [ih hrec]
    | none =>
      rw [hrec] at h
      by_cases hc : c = '.'
      · rw [if_pos hc] at h
        injection h with h
        injection h with h1 h2
        rw [← h1, ← h2, hc]
        rfl
      · rw [if_neg hc] at h
        cases h

theorem parseIndexHeader_dot {line : String} {f sfx : String}
    (h : parseIndexHeader line = some (f, sfx)) : ('.' : Char) ∈ f.data := by
  unfold parseIndexHeader at h
  split at h
  · split at h
    · rename_i before ext heq
      split at h
      · injection h with h
        injection h with h1 h2
        rw [← h1]
        show ('.' : Char) ∈ line.data.drop 7
        rw [splitLastDot_eq heq]
        exact List.mem_append.mpr (Or.inr (List.mem_cons_self _ _))
      · cases h
    · cases h
  · cases h

theorem not_makefile_of_dot {f : String} (h : ('.' : Char) ∈ f.data) :
    isMakefileName f = false := by
  unfold isMakefileName
  apply decide_eq_false
  intro heq
  have hmem : ('.' : Char) ∈ (strLower f).data :=
    List.mem_map.mpr ⟨'.', h, by decide⟩
  rw [heq] at hmem
  exact absurd hmem (by decide)

theorem trigHeaderUpdate_good {st : TrigState} {line : String}
    (hst : isMakefileName st.file_name = false) :
    isMakefileName (trigHeaderUpdate st line).1 = false := by
  unfold trigHeaderUpdate
  cases hp : parseIndexHeader line with
  | none => exact hst
  | some p =>
    obtain ⟨f, sfx⟩ := p
    exact not_makefile_of_dot (parseIndexHeader_dot hp)

theorem ite_append_self {c : Prop} [Decidable c] (a x : List String) :
    ∃ w, (if c then a ++ x else a) = a ++ w := by
  by_cases h : c
  · rw [if_pos h]
    exact ⟨x, rfl⟩
  · rw [if_neg h]
    exact ⟨[], by simp⟩

theorem trigStep_err_good (cfg : TrigCfg) (st : TrigState) (line : String)
    (hst : isMakefileName st.file_name = false) :
    (trigStep cfg st line).err = st.err
    ∧ isMakefileName (trigStep cfg st line).file_name = false := by
  have hgood := @trigHeaderUpdate_good st line hst
  by_cases hadd : isAddedLine line = false
  · simp [trigStep, if_pos hadd, hgood]
  · have htab : ¬ (cfg.allow_tabs = false ∧ containsTab line = true
        ∧ isMakefileName (trigHeaderUpdate st line).1 = true) := by
      rintro ⟨-, -, h3⟩
      rw [hgood] at h3
      cases h3
    simp [trigStep, if_neg hadd, if_neg htab, hgood]

theorem trigFold_err_good (cfg : TrigCfg) (lines : List String) (st : TrigState)
    (hst : isMakefileName st.file_name = false) :
    (lines.foldl (trigStep cfg) st).err = st.err
    ∧ isMakefileName (lines.foldl (trigStep cfg) st).file_name = false := by
  induction lines generalizing st with
  | nil => exact ⟨rfl, hst⟩
  | cons line rest ih =>
    rw [List.foldl_cons]
    have h1 := trigStep_err_good cfg st line hst
    have h2 := ih (trigStep cfg st line) h1.2
    exact ⟨h2.1.trans h1.1, h2.2⟩

theorem trigStep_warn_mono (cfg : TrigCfg) (st : TrigState) (line : String) :
    ∃ w, (trigStep cfg st line).warn = st.warn ++ w := by
  by_cases hadd : isAddedLine line = false
  · simp only [trigStep, if_pos hadd]
    exact ⟨[], (List.append_nil _).symm⟩
  · simp only [trigStep, if_neg hadd]
    exact ite_append_self _ _

theorem trigFold_warn_mono (cfg : TrigCfg) (lines : List String) (st : TrigState) :
    ∃ w, (lines.foldl (trigStep cfg) st).warn = st.warn ++ w := by
  induction lines generalizing st with
  | nil => exact ⟨[], by simp⟩
  | cons line rest ih =>
    rw [List.foldl_cons]
    obtain ⟨w1, hw1⟩ := trigStep_warn_mono cfg st line
    obtain ⟨w2, hw2⟩ := ih (trigStep cfg st line)
    exact ⟨w1 ++ w2, by rw [hw2, hw1, List.append_assoc]⟩

theorem takesPfx_index_plus (x : List Char) :
    takesPfx "index: ".data ('+' :: x) = false := rfl

theorem parseIndexHeader_of_added {l : String} (h : isAddedLine l = true) :
    parseIndexHeader l = none := by
  obtain ⟨c2, t, hdata⟩ : ∃ c2 t, l.data = '+' :: c2 :: t := by
    unfold isAddedLine at h
    cases hd : l.data with
    | nil =>
      rw [hd] at h
      cases h
    | cons c1 rest =>
      cases rest with
      | nil =>
        rw [hd] at h
        cases h
      | cons c2 t =>
        rw [hd] at h
        have h1 := (Bool.and_eq_true _ _).mp h
        have hc1 : c1 = '+' := of_decide_eq_true h1.1
        refine ⟨c2, t, ?_⟩
        rw [hc1]
  unfold parseIndexHeader
  have hlow : (strLower l).data = '+' :: (Char.toLower c2 :: t.map Char.toLower) := by
    show l.data.map Char.toLower = _
    rw [hdata]
    rfl
  have hneg : takesPfx "index: ".data (strLower l).data = false := by
    rw [hlow]
    exact takesPfx_index_plus _
  rw [if_neg (by simp [hneg])]

/-- Claim C10, counterexample: with tabs disallowed, an added line
containing a tab in `a.py` is not flagged as an error (the source's tab
check additionally requires the tracked file name to equal `Makefile`),
and nothing is flagged at all on this diff. -/
theorem C10_counterexample :
    containsTab "+\thello" = true
    ∧ isAddedLine "+\thello" = true
    ∧ GetTriggerWarnings ⟨fun _ => 80, false⟩ "Index: a.py\n+\thello" = ([], []) := by
  refine ⟨by decide, by decide, by decide⟩

/-- Claim C10 (amended): `GetTriggerWarnings` flags as a warning every
added line (a line beginning with `'+'` then a non-`'+'` character) whose
length beyond the leading `'+'` exceeds the configured column limit of the
language tracked from the diff's `Index:` header lines; it never emits a
tab error for any configuration or diff, because the tab check also
requires the tracked file name to be exactly `Makefile`, which the header
pattern (requiring a dot-suffix) can never record. -/
theorem C10_trigger_warnings :
    (∀ (cfg : TrigCfg) (diff : String), (GetTriggerWarnings cfg diff).1 = [])
    ∧ (∀ (cfg : TrigCfg) (diff : String) (pre : List String) (l : String)
        (post : List String),
        pySplitlines diff = pre ++ l :: post →
        isAddedLine l = true →
        l.length - 1 > cfg.maxCols (trigStateAfter cfg pre).language →
        ("Exceed " ++ toString (cfg.maxCols (trigStateAfter cfg pre).language)
          ++ " cols(" ++ (trigStateAfter cfg pre).file_name ++ "):" ++ l)
          ∈ (GetTriggerWarnings cfg diff).2) := by
  constructor
  · intro cfg diff
    exact (trigFold_err_good cfg (pySplitlines diff) trigInit (by decide)).1
  · intro cfg diff pre l post hsplit hadd hlen
    have hgood : isMakefileName (trigStateAfter cfg pre).file_name = false :=
      (trigFold_err_good cfg pre trigInit (by decide)).2
    set st := trigStateAfter cfg pre with hstdef
    have hupd : trigHeaderUpdate st l = (st.file_name, st.language) := by
      unfold trigHeaderUpdate
      rw [parseIndexHeader_of_added hadd]
    have htab' : ¬ (cfg.allow_tabs = false ∧ containsTab l = true
        ∧ isMakefileName st.file_name = true) := by
      rintro ⟨-, -, h3⟩
      rw [hgood] at h3
      cases h3
    have hstep : (trigStep cfg st l).warn = st.warn
        ++ ["Exceed " ++ toString (cfg.maxCols st.language) ++ " cols("
            ++ st.file_name ++ "):" ++ l] := by
      simp only [trigStep, if_neg (by simp [hadd] : ¬ isAddedLine l = false), hupd]
      simp only [if_neg htab']
      rw [if_pos hlen]
    have hmain : (GetTriggerWarnings cfg diff).2
        = (List.foldl (trigStep cfg) (trigStep cfg st l) post).warn := by
      simp only [GetTriggerWarnings, hsplit, List.foldl_append, List.foldl_cons,
        hstdef, trigStateAfter]
    rw [hmain]
    obtain ⟨w, hw⟩ := trigFold_warn_mono cfg post (trigStep cfg st l)
    rw [hw, hstep]
    rw [List.append_assoc]
    exact List.mem_append.mpr (Or.inr (List.mem_append.mpr (Or.inl
      (List.mem_singleton_self _))))

/-- Witness for claim C10: a concrete over-long added line in `a.py` is
flagged with the expected warning text, and the error list is empty. -/
theorem C10_witness :
    ("Exceed " ++ toString ((fun _ : String => 10) (trigStateAfter ⟨fun _ => 10, false⟩
        ["Index: a.py"]).language) ++ " cols("
      ++ (trigStateAfter ⟨fun _ => 10, false⟩ ["Index: a.py"]).file_name ++ "):"
      ++ "+aaaaaaaaaaaaaaa")
      ∈ (GetTriggerWarnings ⟨fun _ => 10, false⟩ "Index: a.py\n+aaaaaaaaaaaaaaa").2
    ∧ (GetTriggerWarnings ⟨fun _ => 10, false⟩ "Index: a.py\n+aaaaaaaaaaaaaaa").1 = [] := by
  constructor
  · exact C10_trigger_warnings.2 ⟨fun _ => 10, false⟩ "Index: a.py\n+aaaaaaaaaaaaaaa"
      ["Index: a.py"] "+aaaaaaaaaaaaaaa" [] (by decide) (by decide) (by decide)
  · exact C10_trigger_warnings.1 ⟨fun _ => 10, false⟩ "Index: a.py\n+aaaaaaaaaaaaaaa"

/-! ## Theorems: the approval scan and the check-in flow (claims C1, C5, C8) -/

theorem scanStep_of_not_qualifies {st : ScanState} {m : MessageM}
    (hq : ¬ qualifies m = true) : scanStep st m = st := by
  unfold qualifies at hq
  unfold scanStep
  by_cases hm : mentionsLGTM m.msg = true
  · rw [if_pos hm]
    have hme : m.commenter = "me" := by
      by_contra hne
      exact hq (by rw [Bool.and_eq_true, hm]; exact ⟨rfl, decide_eq_true hne⟩)
    rw [if_pos hme]
  · rw [if_neg hm]

theorem scanStep_of_qualifies {st : ScanState} {m : MessageM}
    (hq : qualifies m = true) :
    scanStep st m =
      ⟨if m.commenter ∈ st.approvers then st.approvers
       else st.approvers ++ [m.commenter],
       some m.ago, "LGTM\x27ed"⟩ := by
  unfold qualifies at hq
  rw [Bool.and_eq_true] at hq
  have hme : m.commenter ≠ "me" := of_decide_eq_true hq.2
  unfold scanStep
  rw [if_pos hq.1, if_neg hme]

theorem scanStep_approvers_head {st : ScanState} {m : MessageM}
    (hq : qualifies m = true) :
    (scanStep st m).approvers.head? = st.approvers.head?.or (some m.commenter) := by
  rw [scanStep_of_qualifies hq]
  cases hap : st.approvers with
  | nil =>
    by_cases hmem : m.commenter ∈ ([] : List String)
    · cases hmem
    · simp
  | cons a rest =>
    by_cases hmem : m.commenter ∈ a :: rest
    · simp [hmem]
    · simp [hmem]

theorem scanAux_approvers_head (msgs : List MessageM) (st : ScanState) :
    (msgs.foldl scanStep st).approvers.head?
      = st.approvers.head?.or ((msgs.find? qualifies).map (fun m => m.commenter)) := by
  induction msgs generalizing st with
  | nil => simp
  | cons m t ih =>
    rw [List.foldl_cons]
    by_cases hq : qualifies m = true
    · rw [List.find?_cons_of_pos _ hq, ih]
      rw [scanStep_approvers_head hq]
      cases hhd : st.approvers.head? with
      | none => simp
      | some a => simp
    · rw [List.find?_cons_of_neg _ hq, scanStep_of_not_qualifies hq, ih]

theorem scanAux_ago (msgs : List MessageM) (st : ScanState) :
    (msgs.foldl scanStep st).lgtm_ago
      = (((msgs.filter qualifies).reverse.head?).map (fun m => m.ago)).or st.lgtm_ago := by
  induction msgs generalizing st with
  | nil => simp
  | cons m t ih =>
    rw [List.foldl_cons]
    by_cases hq : qualifies m = true
    · rw [List.filter_cons_of_pos hq, ih]
      rw [List.reverse_cons, List.head?_append]
      rw [scanStep_of_qualifies hq]
      cases hhd : (t.filter qualifies).reverse.head? with
      | none => simp
      | some x => simp
    · rw [List.filter_cons_of_neg hq, scanStep_of_not_qualifies hq, ih]

theorem scanAux_approvers_nodup (msgs : List MessageM) (st : ScanState)
    (h : st.approvers.Nodup) : (msgs.foldl scanStep st).approvers.Nodup := by
  induction msgs generalizing st with
  | nil => exact h
  | cons m t ih =>
    rw [List.foldl_cons]
    by_cases hq : qualifies m = true
    · apply ih
      rw [scanStep_of_qualifies hq]
      by_cases hmem : m.commenter ∈ st.approvers
      · simpa [hmem] using h
      · simp only [if_neg hmem]
        rw [List.nodup_append]
        refine ⟨h, List.nodup_singleton _, ?_⟩
        intro a ha hb
        rcases List.mem_singleton.mp hb with rfl
        exact hmem ha
    · rw [scanStep_of_not_qualifies hq]
      exact ih st h

theorem scanAux_approvers_mem (msgs : List MessageM) (st : ScanState) (c : String) :
    c ∈ (msgs.foldl scanStep st).approvers
      ↔ c ∈ st.approvers ∨ ∃ m ∈ msgs, qualifies m = true ∧ m.commenter = c := by
  induction msgs generalizing st with
  | nil => simp
  | cons m t ih =>
    rw [List.foldl_cons]
    by_cases hq : qualifies m = true
    · rw [ih]
      have hstep : c ∈ (scanStep st m).approvers
          ↔ c ∈ st.approvers ∨ m.commenter = c := by
        rw [scanStep_of_qualifies hq]
        by_cases hmem : m.commenter ∈ st.approvers
        · simp only [if_pos hmem]
          constructor
          · exact Or.inl
          · rintro (h1 | rfl)
            · exact h1
            · exact hmem
        · simp only [if_neg hmem]
          rw [List.mem_append, List.mem_singleton]
          constructor
          · rintro (h1 | rfl)
            · exact Or.inl h1
            · exact Or.inr rfl
          · rintro (h1 | rfl)
            · exact Or.inl h1
            · exact Or.inr rfl
      rw [hstep]
      constructor
      · rintro ((h1 | h2) | ⟨m', hm', hqm', hcm'⟩)
        · exact Or.inl h1
        · exact Or.inr ⟨m, List.mem_cons_self _ _, hq, h2⟩
        · exact Or.inr ⟨m', List.mem_cons_of_mem _ hm', hqm', hcm'⟩
      · rintro (h1 | ⟨m', hm', hqm', hcm'⟩)
        · exact Or.inl (Or.inl h1)
        · rcases List.mem_cons.mp hm' with rfl | hm'
          · exact Or.inl (Or.inr hcm')
          · exact Or.inr ⟨m', hm', hqm', hcm'⟩
    · rw [scanStep_of_not_qualifies hq, ih]
      constructor
      · rintro (h1 | ⟨m', hm', hqm', hcm'⟩)
        · exact Or.inl h1
        · exact Or.inr ⟨m', List.mem_cons_of_mem _ hm', hqm', hcm'⟩
      · rintro (h1 | ⟨m', hm', hqm', hcm'⟩)
        · exact Or.inl h1
        · rcases List.mem_cons.mp hm' with rfl | hm'
          · exact absurd hqm' hq
          · exact Or.inr ⟨m', hm', hqm', hcm'⟩

theorem scanAux_me_not_mem (msgs : List MessageM) (st : ScanState)
    (h : "me" ∉ st.approvers) : "me" ∉ (msgs.foldl scanStep st).approvers := by
  induction msgs generalizing st with
  | nil => exact h
  | cons m t ih =>
    rw [List.foldl_cons]
    by_cases hq : qualifies m = true
    · apply ih
      rw [scanStep_of_qualifies hq]
      by_cases hmem : m.commenter ∈ st.approvers
      · simpa [hmem] using h
      · simp only [if_neg hmem]
        intro hcontra
        rcases List.mem_append.mp hcontra with h1 | h2
        · exact h h1
        · have hme : m.commenter = "me" := (List.mem_singleton.mp h2).symm
          unfold qualifies at hq
          rw [Bool.and_eq_true] at hq
          exact (of_decide_eq_true hq.2) hme
    · rw [scanStep_of_not_qualifies hq]
      exact ih st h

/-- Claim C1, counterexample: with two qualifying approval messages the
scan records both approvers (first approver first) but the recorded
"time since" label is the one of the LAST qualifying message, not the
first approver's: here `"1 hour ago"` (bob's), not `"5 days ago"`
(alice's, the first approver). -/
theorem C1_counterexample :
    scanMsgs [⟨"alice", "5 days ago", "LGTM"⟩, ⟨"bob", "1 hour ago", "lgtm, ship it"⟩]
      = ⟨["alice", "bob"], some "1 hour ago", "LGTM\x27ed"⟩
    ∧ ("1 hour ago" : String) ≠ "5 days ago" := by
  exact ⟨by decide, by decide⟩

/-- Claim C1 (amended): the approval scan matches `LGTM`, its misspelling
`LTGM` and "looks good to me" case-insensitively; the first approver's
identity is recorded — the approver list holds exactly the qualifying
non-self commenters, without duplicates, the FIRST qualifying approver at
its head; the recorded "time since" label is the LAST qualifying
message's (not the first approver's); a self-approval (commenter rendered
as `"me"`) is never counted; and when no qualifying approval message
exists the non-forced flow ends with the "does not yet have an LGTM"
error carrying the review URL, and the commit step is never reached. -/
theorem C1_approval_scan :
    (∀ msgs : List MessageM, (scanMsgs msgs).approvers.head?
        = (msgs.find? qualifies).map (fun m => m.commenter))
    ∧ (∀ msgs : List MessageM, (scanMsgs msgs).approvers.Nodup)
    ∧ (∀ (msgs : List MessageM) (c : String), c ∈ (scanMsgs msgs).approvers
        ↔ ∃ m ∈ msgs, qualifies m = true ∧ m.commenter = c)
    ∧ (∀ msgs : List MessageM, (scanMsgs msgs).lgtm_ago
        = ((msgs.filter qualifies).reverse.head?).map (fun m => m.ago))
    ∧ (∀ msgs : List MessageM, "me" ∉ (scanMsgs msgs).approvers)
    ∧ (∀ (inp : CheckInInput) (n : Nat), inp.force = false →
        parseIssueNum inp.cl = some n →
        inp.msgs.filter qualifies = [] →
        (executeCheckInModel inp).2 = .error (.notApproved inp.cl
          ("http://" ++ inp.server ++ "/" ++ toString n))
        ∧ Effect.commitStep ∉ (executeCheckInModel inp).1) := by
  refine ⟨?_, ?_, ?_, ?_, ?_, ?_⟩
  · intro msgs
    have h := scanAux_approvers_head msgs ⟨[], none, ""⟩
    simpa using h
  · intro msgs
    exact scanAux_approvers_nodup msgs ⟨[], none, ""⟩ List.nodup_nil
  · intro msgs c
    have h := scanAux_approvers_mem msgs ⟨[], none, ""⟩ c
    simpa using h
  · intro msgs
    have h := scanAux_ago msgs ⟨[], none, ""⟩
    simpa using h
  · intro msgs
    exact scanAux_me_not_mem msgs ⟨[], none, ""⟩ (by simp)
  · intro inp n hforce hparse hfilter
    have hcl : ¬ (inp.cl = "issue" ∧ inp.force = false) := by
      rintro ⟨h1, -⟩
      rw [h1] at hparse
      cases hparse
    have hago : (scanMsgs inp.msgs).lgtm_ago = none := by
      have h := scanAux_ago inp.msgs ⟨[], none, ""⟩
      rw [hfilter] at h
      simpa using h
    have hrun : executeCheckInModel inp = checkInWithIssue inp [] n inp.cl := by
      unfold executeCheckInModel
      rw [if_neg hcl, hparse]
    rw [hrun]
    simp only [checkInWithIssue]
    rw [hforce]
    rw [if_neg Bool.false_ne_true]
    rw [hago]
    rw [if_pos (by decide : agoFalsy none = true)]
    refine ⟨rfl, ?_⟩
    show Effect.commitStep ∉ ([] ++ [Effect.fetch, Effect.fetch])
    decide

/-- Witness for claim C1: a message list with only a self-LGTM and a
non-matching comment has no qualifying approval, so the non-forced flow on
`issue42` fails with the review URL and without the commit step. -/
theorem C1_witness :
    (executeCheckInModel
      { force := false, server := "mondrian", cl := "issue42", html := "",
        msgs := [⟨"me", "now", "LGTM"⟩, ⟨"bob", "then", "nice work"⟩],
        uploadIssueNum := 0, closeSend := .ok "",
        publishSend := fun _ => .ok "" }).2
      = .error (.notApproved "issue42" "http://mondrian/42")
    ∧ Effect.commitStep ∉ (executeCheckInModel
      { force := false, server := "mondrian", cl := "issue42", html := "",
        msgs := [⟨"me", "now", "LGTM"⟩, ⟨"bob", "then", "nice work"⟩],
        uploadIssueNum := 0, closeSend := .ok "",
        publishSend := fun _ => .ok "" }).1 := by
  have h := C1_approval_scan.2.2.2.2.2
    { force := false, server := "mondrian", cl := "issue42", html := "",
      msgs := [⟨"me", "now", "LGTM"⟩, ⟨"bob", "then", "nice work"⟩],
      uploadIssueNum := 0, closeSend := .ok "",
      publishSend := fun _ => .ok "" }
    42 rfl (by decide) (by decide)
  exact h

/-- Claim C5, the publish step at a not-found response: a 404 has reason
phrase `"Not Found"`, which matches the `/Found/i` pattern the loop uses
to recognize the expected 302 redirect, so the publish step treats a 404
as success on the first attempt — and the full non-forced flow then
removes the changelist from the store — instead of the claimed terminal,
never-retried not-found failure. -/
theorem C5_publish_404_success :
    publishLoop (fun _ => SendResult.httpErr 404 "Not Found") = .ok ()
    ∧ containsCI "found" "Not Found" = true
    ∧ (executeCheckInModel
        { force := false, server := "mondrian", cl := "issue7",
          html := "Issue Closed", msgs := [⟨"alice", "1 hour ago", "LGTM"⟩],
          uploadIssueNum := 0, closeSend := .ok "",
          publishSend := fun _ => .httpErr 404 "Not Found" }).2 = .ok ()
    ∧ Effect.removeCl ∈ (executeCheckInModel
        { force := false, server := "mondrian", cl := "issue7",
          html := "Issue Closed", msgs := [⟨"alice", "1 hour ago", "LGTM"⟩],
          uploadIssueNum := 0, closeSend := .ok "",
          publishSend := fun _ => .httpErr 404 "Not Found" }).1 := by
  refine ⟨rfl, by decide, rfl, by decide⟩

/-- Claim C8: the forced finish flow on a changelist with no prior upload
(name not of the form `issue<N>`) performs exactly one upload and one
commit in that order, skips the approval scan and the final re-upload,
prints the not-auto-closed warning, and never calls the close endpoint
(for every message list and publish behavior). -/
theorem C8_forced_flow (inp : CheckInInput) (hforce : inp.force = true)
    (hparse : parseIssueNum inp.cl = none) :
    (∃ t, (executeCheckInModel inp).1
        = [.upload, .fetch, .fetch, .commitStep, .warnNotClosed] ++ t
      ∧ (t = [] ∨ t = [Effect.removeCl]))
    ∧ Effect.closeCall ∉ (executeCheckInModel inp).1
    ∧ Effect.reupload ∉ (executeCheckInModel inp).1
    ∧ (executeCheckInModel inp).1.count Effect.upload = 1
    ∧ (executeCheckInModel inp).1.count Effect.commitStep = 1
    ∧ Effect.warnNotClosed ∈ (executeCheckInModel inp).1 := by
  have hrun : executeCheckInModel inp
      = checkInWithIssue inp [.upload] inp.uploadIssueNum
          ("issue" ++ toString inp.uploadIssueNum) := by
    unfold executeCheckInModel
    rw [if_neg (by rw [hforce]; rintro ⟨-, h2⟩; cases h2), hparse, if_pos hforce]
  have htrace : (executeCheckInModel inp).1
        = [.upload, .fetch, .fetch, .commitStep, .warnNotClosed] ++ [Effect.removeCl]
      ∨ (executeCheckInModel inp).1
        = [.upload, .fetch, .fetch, .commitStep, .warnNotClosed] ++ [] := by
    rw [hrun]
    simp only [checkInWithIssue]
    rw [if_pos hforce]
    rw [if_neg (by decide : ¬ agoFalsy (some "now") = true)]
    unfold checkInAfterGate
    rw [if_pos hforce]
    cases hpub : publishLoop inp.publishSend with
    | ok u => exact Or.inl rfl
    | error h => exact Or.inr rfl
  rcases htrace with h | h <;> rw [h]
  · exact ⟨⟨[Effect.removeCl], rfl, Or.inr rfl⟩, by decide, by decide, by decide,
      by decide, by decide⟩
  · exact ⟨⟨[], rfl, Or.inl rfl⟩, by decide, by decide, by decide,
      by decide, by decide⟩

/-- Witness for claim C8 at a concrete forced input with no prior upload
and a publish transport that succeeds with the expected 302. -/
theorem C8_witness :
    (∃ t, (executeCheckInModel
      { force := true, server := "mondrian", cl := "my-feature", html := "",
        msgs := [], uploadIssueNum := 9, closeSend := .ok "",
        publishSend := fun _ => .httpErr 302 "Found" }).1
        = [.upload, .fetch, .fetch, .commitStep, .warnNotClosed] ++ t
      ∧ (t = [] ∨ t = [Effect.removeCl]))
    ∧ Effect.closeCall ∉ (executeCheckInModel
      { force := true, server := "mondrian", cl := "my-feature", html := "",
        msgs := [], uploadIssueNum := 9, closeSend := .ok "",
        publishSend := fun _ => .httpErr 302 "Found" }).1 := by
  have h := C8_forced_flow
    { force := true, server := "mondrian", cl := "my-feature", html := "",
      msgs := [], uploadIssueNum := 9, closeSend := .ok "",
      publishSend := fun _ => .httpErr 302 "Found" }
    rfl (by decide)
  exact ⟨h.1, h.2.1⟩

end Cr
